import Mathlib

/-!
Shallow embedding of `src/persistence/repositories/ContentSlotRepository.js`.

The repository manipulates two relational tables through a pooled connection:
`<prefix>contentslots` (one row per content slot) and `<prefix>contentslot_options`
(one row per option, keyed by `(contentslot_id, name)`).  We model these tables as
lists of rows and each repository method as a pure function on that state.
JavaScript `Map`s / option objects are modelled as association lists in insertion
order (`OptionMap`).  The storage engine's `affectedRows` report for `UPDATE`
statements follows MySQL's default "changed rows" semantics: a matched row counts
only when the written value differs from the stored one.  Failures of the driver
and the connection pool are modelled by an explicit `OpFault` parameter; the
`try`/`catch`/`finally` structure of each method is mirrored by `runPlain`
(try/finally only) and `runCreate` (try/catch/finally, as in `createContentSlot`).
-/

/-- A row of the `contentslot_options` table. -/
structure OptionRow where
  contentslot_id : Nat
  name : String
  value : String
deriving DecidableEq

/-- The `contentslot_options` table: a list of rows. -/
abbrev OptionsTable := List OptionRow

/-- A JS option object / `Map<String,String>`: entries in insertion order. -/
abbrev OptionMap := List (String × String)

/-- A row of the `contentslots` table. -/
structure SlotRow where
  id : Nat
  view_id : Nat
  component_type : String
  column_start : Int
  row_start : Int
  column_end : Int
  row_end : Int
deriving DecidableEq

/-- The persistent state touched by the repository: both tables. -/
structure Db where
  slots : List SlotRow
  slotOptions : OptionsTable
deriving DecidableEq

/-- The aggregate object produced by `rowToObject` / `rowToObjectWithOptions`. -/
structure ContentSlotObj where
  id : Nat
  componentType : String
  viewId : Nat
  columnStart : Int
  rowStart : Int
  columnEnd : Int
  rowEnd : Int
  options : OptionMap
deriving DecidableEq

/-- `Object.prototype.hasOwnProperty` / `Map.has` on an `OptionMap`. -/
def hasKey (m : OptionMap) (k : String) : Bool := m.any (fun p => p.1 == k)

/-- JS `Map.set` / object property assignment: overwrite in place, else append. -/
def mapSet (m : OptionMap) (k v : String) : OptionMap :=
  if hasKey m k then m.map (fun p => if p.1 == k then (k, v) else p) else m ++ [(k, v)]

/-- `getOptionsForContentSlot(conn, id)`:
`SELECT * FROM contentslot_options WHERE contentslot_id = ?`, then build a
name-keyed `Map` by iterating the returned rows. -/
def getOptionsForContentSlot (t : OptionsTable) (id : Nat) : OptionMap :=
  (t.filter (fun r => r.contentslot_id == id)).foldl (fun m r => mapSet m r.name r.value) []

/-- `options.get(id).set(name, value)` on the outer `Map<Number, Map<String,String>>`. -/
def outerSet (m : List (Nat × OptionMap)) (i : Nat) (k v : String) : List (Nat × OptionMap) :=
  m.map (fun p => if p.1 == i then (p.1, mapSet p.2 k v) else p)

/-- `getOptionsForContentSlots(conn, ids)`: one `WHERE contentslot_id IN ?` query;
pre-initialize an empty inner `Map` for every requested id, then fill from rows. -/
def getOptionsForContentSlots (t : OptionsTable) (ids : List Nat) : List (Nat × OptionMap) :=
  let rows := t.filter (fun r => ids.contains r.contentslot_id)
  rows.foldl (fun m r => outerSet m r.contentslot_id r.name r.value)
    (ids.map (fun i => (i, ([] : OptionMap))))

/-- The rows selected by `WHERE contentslot_id = ? AND name = ?`. -/
def rowFor (t : OptionsTable) (id : Nat) (k : String) : OptionsTable :=
  t.filter (fun r => r.contentslot_id == id && r.name == k)

/-- `DELETE FROM contentslot_options WHERE contentslot_id = ? AND name = ?`. -/
def deleteOption (t : OptionsTable) (id : Nat) (key : String) : OptionsTable :=
  t.filter (fun r => !(r.contentslot_id == id && r.name == key))

/-- `affectedRows` of `UPDATE contentslot_options SET value = ? WHERE contentslot_id = ?
AND name = ?` under MySQL's changed-rows reporting: matched rows whose stored value
differs from the written one. -/
def updateAffectedRows (t : OptionsTable) (id : Nat) (key value : String) : Nat :=
  ((rowFor t id key).filter (fun r => r.value != value)).length

/-- The table after that `UPDATE` statement. -/
def applyOptionUpdate (t : OptionsTable) (id : Nat) (key value : String) : OptionsTable :=
  t.map (fun r => if r.contentslot_id == id && r.name == key then { r with value := value } else r)

/-- Accumulator of `setOptionsForContentSlot`: the evolving table, the
`optionsChanged` flag, and the number of `UPDATE` statements issued so far. -/
structure SyncAcc where
  table : OptionsTable
  changed : Bool
  updateStmts : Nat
deriving DecidableEq

/-- One iteration of the first loop of `setOptionsForContentSlot`: delete an
existing option whose key is not present in the desired object. -/
def delStep (options : OptionMap) (id : Nat) (acc : OptionsTable × Bool)
    (kv : String × String) : OptionsTable × Bool :=
  if hasKey options kv.1 then acc else (deleteOption acc.1 id kv.1, true)

/-- One iteration of the second loop of `setOptionsForContentSlot`: update the value
of a previously existing key (counting the storage engine's affected-row report),
or insert a new key. -/
def upStep (existingOptions : OptionMap) (id : Nat) (acc : SyncAcc)
    (kv : String × String) : SyncAcc :=
  if hasKey existingOptions kv.1 then
    { table := applyOptionUpdate acc.table id kv.1 kv.2,
      changed := acc.changed || (updateAffectedRows acc.table id kv.1 kv.2 == 1),
      updateStmts := acc.updateStmts + 1 }
  else
    { table := acc.table ++ [⟨id, kv.1, kv.2⟩], changed := true, updateStmts := acc.updateStmts }

/-- `setOptionsForContentSlot(conn, id, options)`: fetch the existing options, delete
the stale ones, then update or insert every desired entry, threading the
`optionsChanged` flag exactly as in the source. -/
def setOptionsForContentSlot (t : OptionsTable) (id : Nat) (options : OptionMap) : SyncAcc :=
  let existingOptions := getOptionsForContentSlot t id
  let step1 := List.foldl (delStep options id) (t, false) existingOptions
  List.foldl (upStep existingOptions id) ⟨step1.1, step1.2, 0⟩ options

/-- `rowToObject(row)`: pure projection; `options` is always the empty object. -/
def rowToObject (row : SlotRow) : ContentSlotObj :=
  { id := row.id, componentType := row.component_type, viewId := row.view_id,
    columnStart := row.column_start, rowStart := row.row_start,
    columnEnd := row.column_end, rowEnd := row.row_end, options := [] }

/-- `rowToObjectWithOptions(row, options)`: projection plus flattening the map
into the aggregate's `options` object. -/
def rowToObjectWithOptions (row : SlotRow) (options : OptionMap) : ContentSlotObj :=
  { rowToObject row with options := options.foldl (fun o kv => mapSet o kv.1 kv.2) [] }

/-- Whether a slot row already stores exactly the scalar values written by the
`UPDATE` of `updateContentSlot` (used for MySQL changed-rows reporting). -/
def slotFieldsMatch (r : SlotRow) (componentType : String) (viewId : Nat)
    (columnStart rowStart columnEnd rowEnd : Int) : Bool :=
  r.view_id == viewId && r.component_type == componentType &&
    r.column_start == columnStart && r.row_start == rowStart &&
    r.column_end == columnEnd && r.row_end == rowEnd

/-- Success path of `createContentSlot`: insert the slot row (the storage engine
assigns `newId` as `insertResult.insertId`), then synchronize the options for the
new id on the same connection; return the new id. -/
def createContentSlotCore (db : Db) (componentType : String) (viewId : Nat)
    (columnStart rowStart columnEnd rowEnd : Int) (options : OptionMap) (newId : Nat) :
    Db × Nat :=
  let slots' := db.slots ++ [⟨newId, viewId, componentType, columnStart, rowStart, columnEnd, rowEnd⟩]
  let sync := setOptionsForContentSlot db.slotOptions newId options
  (⟨slots', sync.table⟩, newId)

/-- Success path of `deleteOne`: `DELETE ... WHERE id = ? LIMIT 1`, then
`affectedRows === 1 ? id : null`. -/
def deleteOneCore (db : Db) (id : Nat) : Db × Option Nat :=
  let affectedRows := if db.slots.any (fun r => r.id == id) then 1 else 0
  let slots' := db.slots.eraseP (fun r => r.id == id)
  ({ db with slots := slots' }, if affectedRows == 1 then some id else none)

/-- Success path of `getContentSlotsByViewId`; the second component counts the
queries issued against the options table. -/
def getContentSlotsByViewIdCore (db : Db) (viewId : Nat) : List ContentSlotObj × Nat :=
  let rows := db.slots.filter (fun r => r.view_id == viewId)
  if rows.length == 0 then ([], 0)
  else
    let contentSlotIds := rows.map (fun r => r.id)
    let options := getOptionsForContentSlots db.slotOptions contentSlotIds
    (rows.map (fun row => rowToObjectWithOptions row ((options.lookup row.id).getD [])), 1)

/-- Success path of `getContentSlotsByComponentType`: select by component type and
map each row through `rowToObject`; the options table is never queried. -/
def getContentSlotsByComponentTypeCore (db : Db) (componentType : String) :
    List ContentSlotObj :=
  (db.slots.filter (fun r => r.component_type == componentType)).map rowToObject

/-- Success path of `updateContentSlot`: update the slot row's scalar columns
(MySQL changed-rows report), synchronize the options, and return the id when
either signal reports a change, `null` otherwise. -/
def updateContentSlotCore (db : Db) (id : Nat) (componentType : String) (viewId : Nat)
    (columnStart rowStart columnEnd rowEnd : Int) (options : OptionMap) :
    Db × Option Nat :=
  let affectedRows := (db.slots.filter (fun r =>
    r.id == id && !(slotFieldsMatch r componentType viewId columnStart rowStart columnEnd rowEnd))).length
  let slots' := db.slots.map (fun r =>
    if r.id == id then
      { r with view_id := viewId, component_type := componentType,
               column_start := columnStart, row_start := rowStart,
               column_end := columnEnd, row_end := rowEnd }
    else r)
  let contentSlotChanged := affectedRows == 1
  let sync := setOptionsForContentSlot db.slotOptions id options
  (⟨slots', sync.table⟩, if contentSlotChanged || sync.changed then some id else none)

/-- A storage-engine diagnostic: MySQL `errno` plus symbolic `code`. -/
structure SqlError where
  errno : Nat
  code : String
deriving DecidableEq

/-- What a repository method can throw: the two typed errors constructed by
`createContentSlot`, or a raw driver error rethrown unwrapped. -/
inductive RepoError where
  | duplicateEntry (code : String)
  | storageError (code : String)
  | raw (e : SqlError)
deriving DecidableEq

/-- Environmental failure of one logical operation: none, the pool's
`getConnection` rejects, or some statement on the connection rejects. -/
inductive OpFault where
  | noFault
  | acquireFail (e : SqlError)
  | queryFail (e : SqlError)
deriving DecidableEq

/-- Observable outcome of one repository method call: its result and whether a
pooled connection was acquired / released. -/
structure OpRun (α : Type) where
  result : Except RepoError α
  connAcquired : Bool
  connReleased : Bool

/-- `try { conn = getConnection(); ... } finally { if (conn) conn.release() }`:
no `catch`, so a failing statement propagates the raw driver error. -/
def runPlain {α : Type} (core : α) (fault : OpFault) : OpRun α :=
  match fault with
  | .noFault => ⟨.ok core, true, true⟩
  | .acquireFail e => ⟨.error (.raw e), false, false⟩
  | .queryFail e => ⟨.error (.raw e), true, true⟩

/-- The `catch` clause of `createContentSlot`: `errno === 1062` becomes
`DuplicateEntryError(e.code)`, anything else `Error(e.code)`. -/
def classifyCreateError (e : SqlError) : RepoError :=
  if e.errno == 1062 then .duplicateEntry e.code else .storageError e.code

/-- `try { ... } catch (e) { classify } finally { if (conn) conn.release() }`
as in `createContentSlot`. -/
def runCreate {α : Type} (core : α) (fault : OpFault) : OpRun α :=
  match fault with
  | .noFault => ⟨.ok core, true, true⟩
  | .acquireFail e => ⟨.error (classifyCreateError e), false, false⟩
  | .queryFail e => ⟨.error (classifyCreateError e), true, true⟩

/-- `createContentSlot` as observed by the caller. -/
def createContentSlot (db : Db) (componentType : String) (viewId : Nat)
    (columnStart rowStart columnEnd rowEnd : Int) (options : OptionMap) (newId : Nat)
    (fault : OpFault) : OpRun (Db × Nat) :=
  runCreate (createContentSlotCore db componentType viewId columnStart rowStart columnEnd rowEnd options newId) fault

/-- `deleteOne` as observed by the caller. -/
def deleteOne (db : Db) (id : Nat) (fault : OpFault) : OpRun (Db × Option Nat) :=
  runPlain (deleteOneCore db id) fault

/-- `getContentSlotsByViewId` as observed by the caller. -/
def getContentSlotsByViewId (db : Db) (viewId : Nat) (fault : OpFault) :
    OpRun (List ContentSlotObj × Nat) :=
  runPlain (getContentSlotsByViewIdCore db viewId) fault

/-- `getContentSlotsByComponentType` as observed by the caller. -/
def getContentSlotsByComponentType (db : Db) (componentType : String) (fault : OpFault) :
    OpRun (List ContentSlotObj) :=
  runPlain (getContentSlotsByComponentTypeCore db componentType) fault

/-- `updateContentSlot` as observed by the caller. -/
def updateContentSlot (db : Db) (id : Nat) (componentType : String) (viewId : Nat)
    (columnStart rowStart columnEnd rowEnd : Int) (options : OptionMap)
    (fault : OpFault) : OpRun (Db × Option Nat) :=
  runPlain (updateContentSlotCore db id componentType viewId columnStart rowStart columnEnd rowEnd options) fault

/-- Identity of an option row under the schema's unique constraint. -/
@[reducible] def rowKey (r : OptionRow) : Nat × String := (r.contentslot_id, r.name)

/-- The schema invariant of `contentslot_options`: `(contentslot_id, name)` unique. -/
@[reducible] def WFoptions (t : OptionsTable) : Prop := (t.map rowKey).Nodup

/-- The schema invariant of `contentslots`: `id` is a primary key. -/
@[reducible] def uniqueSlotIds (slots : List SlotRow) : Prop := (slots.map (fun r => r.id)).Nodup

/-- The persisted option map of one slot, read off the table. -/
def pairsFor (t : OptionsTable) (id : Nat) : OptionMap :=
  (t.filter (fun r => r.contentslot_id == id)).map (fun r => (r.name, r.value))

/-- Two association lists denote the same string map. -/
def mapsEqual (m₁ m₂ : OptionMap) : Prop := ∀ k, m₁.lookup k = m₂.lookup k

/-- A JS object's entry list: keys are unique. -/
@[reducible] def nodupKeys (m : OptionMap) : Prop := (m.map Prod.fst).Nodup

/-- Keys of `existing` that the delete pass of the synchronizer removes. -/
def delKeysOf (options : OptionMap) (l : OptionMap) : List String :=
  (l.map Prod.fst).filter (fun k => !(hasKey options k))

theorem hasKey_iff_mem (m : OptionMap) (k : String) :
    hasKey m k = true ↔ k ∈ m.map Prod.fst := by
  simp only [hasKey, List.any_eq_true, List.mem_map, beq_iff_eq]

theorem lookup_eq_none_iff (m : OptionMap) (k : String) :
    m.lookup k = none ↔ k ∉ m.map Prod.fst := by
  induction m with
  | nil => simp
  | cons p rest ih =>
    obtain ⟨k', v'⟩ := p
    by_cases h : k = k'
    · simp [List.lookup_cons, h]
    · have hb : (k == k') = false := beq_eq_false_iff_ne.mpr h
      simp [List.lookup_cons, hb, h, ih]

theorem mem_of_lookup_eq_some {m : OptionMap} {k v : String}
    (h : m.lookup k = some v) : (k, v) ∈ m := by
  induction m with
  | nil => simp [List.lookup] at h
  | cons p rest ih =>
    obtain ⟨k', v'⟩ := p
    by_cases hk : k = k'
    · subst hk
      simp [List.lookup_cons] at h
      simp [h]
    · have hb : (k == k') = false := beq_eq_false_iff_ne.mpr hk
      simp only [List.lookup_cons, hb] at h
      exact List.mem_cons_of_mem _ (ih h)

theorem lookup_eq_some_of_mem {m : OptionMap} (hm : nodupKeys m) {k v : String}
    (h : (k, v) ∈ m) : m.lookup k = some v := by
  induction m with
  | nil => simp at h
  | cons p rest ih =>
    obtain ⟨k', v'⟩ := p
    rcases List.mem_cons.mp h with h1 | h1
    · rw [← h1]
      simp [List.lookup_cons]
    · have hk : k ≠ k' := by
        intro hkk
        subst hkk
        have : k ∈ rest.map Prod.fst := List.mem_map.mpr ⟨(k, v), h1, rfl⟩
        have hnd := hm
        simp only [nodupKeys, List.map_cons, List.nodup_cons] at hnd
        exact hnd.1 this
      have hb : (k == k') = false := beq_eq_false_iff_ne.mpr hk
      simp only [List.lookup_cons, hb]
      have hrest : nodupKeys rest := by
        have hnd := hm
        simp only [nodupKeys, List.map_cons, List.nodup_cons] at hnd
        exact hnd.2
      exact ih hrest h1

theorem exists_lookup_of_mem_keys {m : OptionMap} {k : String}
    (h : k ∈ m.map Prod.fst) : ∃ v, m.lookup k = some v := by
  cases hl : m.lookup k with
  | none => exact absurd ((lookup_eq_none_iff m k).mp hl) (by simpa using h)
  | some v => exact ⟨v, rfl⟩

theorem lookup_isSome_iff (m : OptionMap) (k : String) :
    (m.lookup k).isSome = true ↔ k ∈ m.map Prod.fst := by
  constructor
  · intro h
    obtain ⟨v, hv⟩ := Option.isSome_iff_exists.mp h
    exact List.mem_map.mpr ⟨(k, v), mem_of_lookup_eq_some hv, rfl⟩
  · intro h
    obtain ⟨v, hv⟩ := exists_lookup_of_mem_keys h
    simp [hv]

theorem rowFor_filter (t : OptionsTable) (p : OptionRow → Bool) (id : Nat) (k : String) :
    rowFor (t.filter p) id k = (rowFor t id k).filter p := by
  unfold rowFor
  rw [List.filter_filter, List.filter_filter]
  exact List.filter_congr (fun r _ => Bool.and_comm _ _)

theorem rowFor_append (t₁ t₂ : OptionsTable) (id : Nat) (k : String) :
    rowFor (t₁ ++ t₂) id k = rowFor t₁ id k ++ rowFor t₂ id k :=
  List.filter_append _ _

theorem rowFor_singleton_self (id : Nat) (k v : String) :
    rowFor [⟨id, k, v⟩] id k = [⟨id, k, v⟩] := by
  simp [rowFor]

theorem rowFor_singleton_ne (id : Nat) {k k' : String} (v : String) (h : k' ≠ k) :
    rowFor [⟨id, k, v⟩] id k' = [] := by
  simp [rowFor, beq_iff_eq, Ne.symm h]

theorem rowKey_of_mem_rowFor {t : OptionsTable} {id : Nat} {k : String} {r : OptionRow}
    (h : r ∈ rowFor t id k) : rowKey r = (id, k) := by
  have hp := (List.mem_filter.mp h).2
  simp only [Bool.and_eq_true, beq_iff_eq] at hp
  simp [rowKey, hp.1, hp.2]

theorem rowFor_ne_nil_iff (t : OptionsTable) (id : Nat) (k : String) :
    rowFor t id k ≠ [] ↔ ∃ r ∈ t, r.contentslot_id = id ∧ r.name = k := by
  rw [Ne, List.eq_nil_iff_forall_not_mem]
  push_neg
  constructor
  · rintro ⟨r, hr⟩
    have := List.mem_filter.mp hr
    simp only [Bool.and_eq_true, beq_iff_eq] at this
    exact ⟨r, this.1, this.2⟩
  · rintro ⟨r, hr, h1, h2⟩
    exact ⟨r, List.mem_filter.mpr ⟨hr, by simp [h1, h2]⟩⟩

theorem WFoptions_filter {t : OptionsTable} (hWF : WFoptions t) (p : OptionRow → Bool) :
    WFoptions (t.filter p) :=
  List.Nodup.sublist (List.Sublist.map rowKey (List.filter_sublist t)) hWF

theorem rowFor_length_le_one {t : OptionsTable} (hWF : WFoptions t) (id : Nat) (k : String) :
    (rowFor t id k).length ≤ 1 := by
  have hnd : ((rowFor t id k).map rowKey).Nodup :=
    List.Nodup.sublist (List.Sublist.map rowKey (List.filter_sublist t)) hWF
  cases h : rowFor t id k with
  | nil => simp
  | cons r rest =>
    cases rest with
    | nil => simp
    | cons r' rest' =>
      exfalso
      have hr : r ∈ rowFor t id k := by rw [h]; exact List.mem_cons_self _ _
      have hr' : r' ∈ rowFor t id k := by rw [h]; exact List.mem_cons_of_mem _ (List.mem_cons_self _ _)
      rw [h] at hnd
      simp only [List.map_cons, List.nodup_cons, List.mem_cons] at hnd
      exact hnd.1 (Or.inl (by rw [rowKey_of_mem_rowFor hr, rowKey_of_mem_rowFor hr']))

theorem rowFor_eq_nil_or_singleton {t : OptionsTable} (hWF : WFoptions t) (id : Nat) (k : String) :
    rowFor t id k = [] ∨ ∃ r, rowFor t id k = [r] := by
  have := rowFor_length_le_one hWF id k
  cases h : rowFor t id k with
  | nil => exact Or.inl rfl
  | cons r rest =>
    cases rest with
    | nil => exact Or.inr ⟨r, rfl⟩
    | cons r' rest' => rw [h] at this; simp at this

theorem rowKey_mem_iff (t : OptionsTable) (id : Nat) (k : String) :
    (id, k) ∈ t.map rowKey ↔ rowFor t id k ≠ [] := by
  rw [rowFor_ne_nil_iff, List.mem_map]
  constructor
  · rintro ⟨r, hr, hk⟩
    simp only [rowKey, Prod.mk.injEq] at hk
    exact ⟨r, hr, hk.1, hk.2⟩
  · rintro ⟨r, hr, h1, h2⟩
    exact ⟨r, hr, by simp [rowKey, h1, h2]⟩

theorem pairsFor_names (t : OptionsTable) (id : Nat) :
    (pairsFor t id).map Prod.fst
      = (t.filter (fun r => r.contentslot_id == id)).map (fun r => r.name) := by
  simp [pairsFor, List.map_map]

theorem filterSlot_names_nodup {t : OptionsTable} (hWF : WFoptions t) (id : Nat) :
    ((t.filter (fun r => r.contentslot_id == id)).map (fun r => r.name)).Nodup := by
  have h1 : ((t.filter (fun r => r.contentslot_id == id)).map rowKey).Nodup :=
    List.Nodup.sublist (List.Sublist.map rowKey (List.filter_sublist t)) hWF
  have h2 : (t.filter (fun r => r.contentslot_id == id)).map rowKey
      = ((t.filter (fun r => r.contentslot_id == id)).map (fun r => r.name)).map
          (fun n => (id, n)) := by
    rw [List.map_map]
    apply List.map_congr_left
    intro r hr
    have hm := (List.mem_filter.mp hr).2
    simp only [beq_iff_eq] at hm
    simp [rowKey, Function.comp, hm]
  rw [h2] at h1
  exact List.Nodup.of_map _ h1

theorem nodupKeys_pairsFor {t : OptionsTable} (hWF : WFoptions t) (id : Nat) :
    nodupKeys (pairsFor t id) := by
  unfold nodupKeys
  rw [pairsFor_names]
  exact filterSlot_names_nodup hWF id

theorem mapSet_not_hasKey {m : OptionMap} {k : String} (h : hasKey m k = false) (v : String) :
    mapSet m k v = m ++ [(k, v)] := by
  simp [mapSet, h]

theorem hasKey_append (m₁ m₂ : OptionMap) (k : String) :
    hasKey (m₁ ++ m₂) k = (hasKey m₁ k || hasKey m₂ k) := by
  simp [hasKey, List.any_append]

theorem foldl_mapSet_eq_append (l : OptionsTable) :
    (l.map (fun r => r.name)).Nodup →
    ∀ acc : OptionMap, (∀ r ∈ l, hasKey acc r.name = false) →
    l.foldl (fun m r => mapSet m r.name r.value) acc
      = acc ++ l.map (fun r => (r.name, r.value)) := by
  induction l with
  | nil => intro _ acc _; simp
  | cons r rest ih =>
    intro hnd acc hdisj
    simp only [List.foldl_cons]
    rw [mapSet_not_hasKey (hdisj r (List.mem_cons_self _ _)) r.value]
    simp only [List.map_cons, List.nodup_cons] at hnd
    have hdisj' : ∀ s ∈ rest, hasKey (acc ++ [(r.name, r.value)]) s.name = false := by
      intro s hs
      rw [hasKey_append]
      have h1 := hdisj s (List.mem_cons_of_mem _ hs)
      have hne : s.name ≠ r.name := by
        intro heq
        exact hnd.1 (heq ▸ List.mem_map.mpr ⟨s, hs, rfl⟩)
      have h2 : hasKey [(r.name, r.value)] s.name = false := by
        simp only [hasKey, List.any_cons, List.any_nil, Bool.or_false]
        exact beq_eq_false_iff_ne.mpr (fun heq => hne heq.symm)
      rw [h1, h2]
      rfl
    rw [ih hnd.2 _ hdisj']
    simp

theorem getOptions_eq_pairsFor {t : OptionsTable} (hWF : WFoptions t) (id : Nat) :
    getOptionsForContentSlot t id = pairsFor t id := by
  unfold getOptionsForContentSlot pairsFor
  rw [foldl_mapSet_eq_append _ (filterSlot_names_nodup hWF id) [] (fun r _ => rfl)]
  simp

theorem hasKey_pairsFor_iff (t : OptionsTable) (id : Nat) (k : String) :
    hasKey (pairsFor t id) k = true ↔ rowFor t id k ≠ [] := by
  rw [hasKey_iff_mem, rowFor_ne_nil_iff, pairsFor_names]
  constructor
  · intro h
    obtain ⟨r, hr, hname⟩ := List.mem_map.mp h
    have hm := (List.mem_filter.mp hr).2
    simp only [beq_iff_eq] at hm
    exact ⟨r, (List.mem_filter.mp hr).1, hm, hname⟩
  · rintro ⟨r, hr, h1, h2⟩
    exact List.mem_map.mpr ⟨r, List.mem_filter.mpr ⟨hr, by simp [h1]⟩, h2⟩

theorem lookup_map_name (l : OptionsTable) (k : String) :
    List.lookup k (l.map (fun r => (r.name, r.value)))
      = ((l.filter (fun r => r.name == k)).map (fun r => r.value)).head? := by
  induction l with
  | nil => simp
  | cons r rest ih =>
    by_cases h : r.name = k
    · have hb : (k == r.name) = true := beq_iff_eq.mpr h.symm
      have hb2 : (r.name == k) = true := beq_iff_eq.mpr h
      simp [List.lookup_cons, hb, hb2, List.filter_cons]
    · have hb : (k == r.name) = false := beq_eq_false_iff_ne.mpr (Ne.symm h)
      have hb2 : (r.name == k) = false := beq_eq_false_iff_ne.mpr h
      simp [List.lookup_cons, hb, hb2, List.filter_cons, ih]

theorem lookup_pairsFor (t : OptionsTable) (id : Nat) (k : String) :
    List.lookup k (pairsFor t id) = ((rowFor t id k).map (fun r => r.value)).head? := by
  have hfil : (t.filter (fun r => r.contentslot_id == id)).filter (fun r => r.name == k)
      = rowFor t id k := by
    rw [List.filter_filter]
    exact List.filter_congr (fun r _ => Bool.and_comm _ _)
  unfold pairsFor
  rw [lookup_map_name, hfil]

theorem delStep_mem {options : OptionMap} {id : Nat} (acc : OptionsTable × Bool) {k : String}
    (v : String) (h : hasKey options k = true) : delStep options id acc (k, v) = acc := by
  simp [delStep, h]

theorem delStep_not {options : OptionMap} {id : Nat} (acc : OptionsTable × Bool) {k : String}
    (v : String) (h : hasKey options k = false) :
    delStep options id acc (k, v) = (deleteOption acc.1 id k, true) := by
  simp [delStep, h]

theorem delKeysOf_cons_mem (options : OptionMap) (k v : String) (l : OptionMap)
    (h : hasKey options k = true) : delKeysOf options ((k, v) :: l) = delKeysOf options l := by
  simp [delKeysOf, List.filter_cons, h]

theorem delKeysOf_cons_not (options : OptionMap) (k v : String) (l : OptionMap)
    (h : hasKey options k = false) :
    delKeysOf options ((k, v) :: l) = k :: delKeysOf options l := by
  simp [delKeysOf, List.filter_cons, h]

theorem bool_del_merge (s n c : Bool) : ((!(s && c)) && !(s && n)) = (!(s && (n || c))) := by
  cases s <;> cases n <;> cases c <;> rfl

theorem delete_pass_spec (options : OptionMap) (id : Nat) :
    ∀ (l : OptionMap) (t : OptionsTable) (b : Bool),
      (List.foldl (delStep options id) (t, b) l).1
        = t.filter (fun r => !(r.contentslot_id == id && (delKeysOf options l).contains r.name))
      ∧ (List.foldl (delStep options id) (t, b) l).2
        = (b || !(delKeysOf options l).isEmpty) := by
  intro l
  induction l with
  | nil =>
    intro t b
    constructor
    · simp [delKeysOf]
    · simp [delKeysOf]
  | cons kv rest ih =>
    intro t b
    obtain ⟨k, v⟩ := kv
    by_cases h : hasKey options k = true
    · rw [List.foldl_cons, delStep_mem _ v h, delKeysOf_cons_mem _ _ _ _ h]
      exact ih t b
    · have hf : hasKey options k = false := by simpa using h
      rw [List.foldl_cons, delStep_not _ v hf, delKeysOf_cons_not _ _ _ _ hf]
      obtain ⟨ih1, ih2⟩ := ih (deleteOption t id k) true
      constructor
      · rw [ih1]
        unfold deleteOption
        rw [List.filter_filter]
        apply List.filter_congr
        intro r _
        rw [List.contains_cons]
        exact bool_del_merge _ _ _
      · rw [ih2]
        simp

theorem mem_delKeysOf (options m : OptionMap) (k : String) :
    k ∈ delKeysOf options m ↔ k ∈ m.map Prod.fst ∧ hasKey options k = false := by
  simp [delKeysOf, List.mem_filter]

theorem contains_delKeysOf_of_hasKey {options : OptionMap} {k : String} (m : OptionMap)
    (h : hasKey options k = true) : (delKeysOf options m).contains k = false := by
  have hnot : k ∉ delKeysOf options m := by
    intro hk
    have hmem := ((mem_delKeysOf options m k).mp hk).2
    rw [h] at hmem
    simp at hmem
  simpa using hnot

theorem rowFor_applyOptionUpdate_self (t : OptionsTable) (id : Nat) (k v : String) :
    rowFor (applyOptionUpdate t id k v) id k
      = (rowFor t id k).map (fun r => { r with value := v }) := by
  induction t with
  | nil => rfl
  | cons r rest ih =>
    unfold applyOptionUpdate rowFor at ih ⊢
    rw [List.map_cons]
    by_cases h : (r.contentslot_id == id && r.name == k) = true
    · rw [if_pos h]
      simp only [List.filter_cons]
      rw [if_pos (show (({ r with value := v } : OptionRow).contentslot_id == id
            && ({ r with value := v } : OptionRow).name == k) = true from h)]
      rw [if_pos h, List.map_cons, ih]
    · rw [if_neg h]
      simp only [List.filter_cons]
      rw [if_neg h, if_neg h]
      exact ih

theorem rowFor_applyOptionUpdate_ne (t : OptionsTable) (id : Nat) {k k' : String} (v : String)
    (hne : k' ≠ k) : rowFor (applyOptionUpdate t id k v) id k' = rowFor t id k' := by
  induction t with
  | nil => rfl
  | cons r rest ih =>
    unfold applyOptionUpdate rowFor at ih ⊢
    rw [List.map_cons]
    by_cases h : (r.contentslot_id == id && r.name == k) = true
    · have hn : r.name = k := by
        have hh := h
        simp only [Bool.and_eq_true, beq_iff_eq] at hh
        exact hh.2
      have hb : (r.name == k') = false :=
        beq_eq_false_iff_ne.mpr (by rw [hn]; exact fun hh => hne hh.symm)
      rw [if_pos h]
      simp only [List.filter_cons]
      rw [if_neg (show ¬ ((({ r with value := v } : OptionRow).contentslot_id == id
            && ({ r with value := v } : OptionRow).name == k') = true) from by simp [hb])]
      rw [if_neg (show ¬ ((r.contentslot_id == id && r.name == k') = true) from by simp [hb])]
      exact ih
    · rw [if_neg h]
      simp only [List.filter_cons]
      by_cases h2 : (r.contentslot_id == id && r.name == k') = true
      · rw [if_pos h2, if_pos h2, ih]
      · rw [if_neg h2, if_neg h2]
        exact ih

theorem map_rowKey_applyOptionUpdate (t : OptionsTable) (id : Nat) (k v : String) :
    (applyOptionUpdate t id k v).map rowKey = t.map rowKey := by
  unfold applyOptionUpdate
  rw [List.map_map]
  apply List.map_congr_left
  intro r _
  by_cases h : (r.contentslot_id == id && r.name == k) = true
  · simp [Function.comp, h, rowKey]
  · simp [Function.comp, h, rowKey]

theorem WFoptions_applyOptionUpdate {t : OptionsTable} (hWF : WFoptions t)
    (id : Nat) (k v : String) : WFoptions (applyOptionUpdate t id k v) := by
  unfold WFoptions
  rw [map_rowKey_applyOptionUpdate]
  exact hWF

theorem WFoptions_append_new {t : OptionsTable} (hWF : WFoptions t) {id : Nat} {k : String}
    (v : String) (h : rowFor t id k = []) : WFoptions (t ++ [⟨id, k, v⟩]) := by
  unfold WFoptions
  rw [List.map_append, List.nodup_append]
  refine ⟨hWF, by simp, ?_⟩
  intro a ha hb
  simp only [List.map_cons, List.map_nil, List.mem_cons, List.not_mem_nil, or_false] at hb
  subst hb
  exact ((rowKey_mem_iff t id k).mp ha) h

theorem updateAffectedRows_singleton {t : OptionsTable} {id : Nat} {k : String} {r : OptionRow}
    (h : rowFor t id k = [r]) (v : String) :
    (updateAffectedRows t id k v == 1) = (r.value != v) := by
  unfold updateAffectedRows
  rw [h]
  by_cases hv : (r.value != v) = true
  · simp [List.filter_cons, hv]
  · have hvf : (r.value != v) = false := by simpa using hv
    simp [List.filter_cons, hvf]

theorem up_pass_spec (S : OptionsTable) (id : Nat) (hWF : WFoptions S) :
    ∀ (opts : OptionMap) (t : OptionsTable) (b : Bool) (n : Nat),
      (opts.map Prod.fst).Nodup →
      WFoptions t →
      (∀ k, k ∈ opts.map Prod.fst → rowFor t id k = rowFor S id k) →
      (∀ k v, opts.lookup k = some v →
        rowFor (List.foldl (upStep (pairsFor S id) id) ⟨t, b, n⟩ opts).table id k = [⟨id, k, v⟩])
      ∧ (∀ k, k ∉ opts.map Prod.fst →
        rowFor (List.foldl (upStep (pairsFor S id) id) ⟨t, b, n⟩ opts).table id k = rowFor t id k)
      ∧ WFoptions (List.foldl (upStep (pairsFor S id) id) ⟨t, b, n⟩ opts).table
      ∧ (List.foldl (upStep (pairsFor S id) id) ⟨t, b, n⟩ opts).changed
          = (b || opts.any (fun kv =>
              if hasKey (pairsFor S id) kv.1 then
                (rowFor S id kv.1).any (fun r => r.value != kv.2)
              else true))
      ∧ (List.foldl (upStep (pairsFor S id) id) ⟨t, b, n⟩ opts).updateStmts
          = n + (opts.filter (fun kv => hasKey (pairsFor S id) kv.1)).length := by
  intro opts
  induction opts with
  | nil =>
    intro t b n _ hWFt _
    refine ⟨?_, ?_, ?_, ?_, ?_⟩ <;> simp [hWFt]
  | cons kv rest ih =>
    intro t b n hnd hWFt H1
    obtain ⟨k₀, v₀⟩ := kv
    simp only [List.map_cons, List.nodup_cons] at hnd
    have hk₀rest : k₀ ∉ rest.map Prod.fst := hnd.1
    have hndrest := hnd.2
    have hH1head : rowFor t id k₀ = rowFor S id k₀ := H1 k₀ (by simp)
    by_cases hex : hasKey (pairsFor S id) k₀ = true
    · have hne : rowFor S id k₀ ≠ [] := (hasKey_pairsFor_iff S id k₀).mp hex
      obtain h0 | ⟨r, hr⟩ := rowFor_eq_nil_or_singleton hWF id k₀
      · exact absurd h0 hne
      have hrk : r.contentslot_id = id ∧ r.name = k₀ := by
        have hmem : r ∈ rowFor S id k₀ := by rw [hr]; exact List.mem_cons_self _ _
        have hkey := rowKey_of_mem_rowFor hmem
        simp only [rowKey, Prod.mk.injEq] at hkey
        exact hkey
      have htr : rowFor t id k₀ = [r] := hH1head.trans hr
      have hstep : upStep (pairsFor S id) id ⟨t, b, n⟩ (k₀, v₀)
          = ⟨applyOptionUpdate t id k₀ v₀, b || (updateAffectedRows t id k₀ v₀ == 1), n + 1⟩ := by
        simp [upStep, hex]
      rw [List.foldl_cons, hstep]
      have hWFt' : WFoptions (applyOptionUpdate t id k₀ v₀) :=
        WFoptions_applyOptionUpdate hWFt id k₀ v₀
      have H1' : ∀ k, k ∈ rest.map Prod.fst →
          rowFor (applyOptionUpdate t id k₀ v₀) id k = rowFor S id k := by
        intro k hk
        have hkne : k ≠ k₀ := fun hkk => hk₀rest (hkk ▸ hk)
        rw [rowFor_applyOptionUpdate_ne t id v₀ hkne]
        exact H1 k (List.mem_cons_of_mem _ hk)
      obtain ⟨ih1, ih2, ih3, ih4, ih5⟩ :=
        ih (applyOptionUpdate t id k₀ v₀) (b || (updateAffectedRows t id k₀ v₀ == 1)) (n + 1)
          hndrest hWFt' H1'
      refine ⟨?_, ?_, ih3, ?_, ?_⟩
      · intro k v hkv
        by_cases hkk : k = k₀
        · subst hkk
          have hv : v₀ = v := by simpa [List.lookup_cons] using hkv
          rw [ih2 k hk₀rest, rowFor_applyOptionUpdate_self, htr]
          obtain ⟨rc, rn, rv⟩ := r
          obtain ⟨h1, h2⟩ := hrk
          simp only at h1 h2
          subst h1; subst h2; subst hv
          rfl
        · have hb : (k == k₀) = false := beq_eq_false_iff_ne.mpr hkk
          rw [List.lookup_cons] at hkv
          simp only [hb] at hkv
          exact ih1 k v hkv
      · intro k hk
        simp only [List.map_cons, List.mem_cons] at hk
        push_neg at hk
        rw [ih2 k hk.2, rowFor_applyOptionUpdate_ne t id v₀ hk.1]
      · rw [ih4]
        rw [List.any_cons]
        simp only [hex, if_pos, hr, updateAffectedRows_singleton htr v₀]
        simp [Bool.or_assoc]
      · rw [ih5]
        rw [List.filter_cons]
        simp only [hex, if_pos, List.length_cons]
        omega
    · have hexf : hasKey (pairsFor S id) k₀ = false := by simpa using hex
      have hSnil : rowFor S id k₀ = [] := by
        by_contra hne
        rw [(hasKey_pairsFor_iff S id k₀).mpr hne] at hexf
        simp at hexf
      have htnil : rowFor t id k₀ = [] := hH1head.trans hSnil
      have hstep : upStep (pairsFor S id) id ⟨t, b, n⟩ (k₀, v₀)
          = ⟨t ++ [⟨id, k₀, v₀⟩], true, n⟩ := by
        simp [upStep, hexf]
      rw [List.foldl_cons, hstep]
      have hWFt' : WFoptions (t ++ [⟨id, k₀, v₀⟩]) := WFoptions_append_new hWFt v₀ htnil
      have H1' : ∀ k, k ∈ rest.map Prod.fst →
          rowFor (t ++ [⟨id, k₀, v₀⟩]) id k = rowFor S id k := by
        intro k hk
        have hkne : k ≠ k₀ := fun hkk => hk₀rest (hkk ▸ hk)
        rw [rowFor_append, rowFor_singleton_ne id v₀ hkne, List.append_nil]
        exact H1 k (List.mem_cons_of_mem _ hk)
      obtain ⟨ih1, ih2, ih3, ih4, ih5⟩ := ih (t ++ [⟨id, k₀, v₀⟩]) true n hndrest hWFt' H1'
      refine ⟨?_, ?_, ih3, ?_, ?_⟩
      · intro k v hkv
        by_cases hkk : k = k₀
        · subst hkk
          have hv : v₀ = v := by simpa [List.lookup_cons] using hkv
          rw [ih2 k hk₀rest, rowFor_append, rowFor_singleton_self, htnil, hv]
          rfl
        · have hb : (k == k₀) = false := beq_eq_false_iff_ne.mpr hkk
          rw [List.lookup_cons] at hkv
          simp only [hb] at hkv
          exact ih1 k v hkv
      · intro k hk
        simp only [List.map_cons, List.mem_cons] at hk
        push_neg at hk
        rw [ih2 k hk.2, rowFor_append, rowFor_singleton_ne id v₀ hk.1, List.append_nil]
      · rw [ih4]
        simp [List.any_cons, hexf]
      · rw [ih5]
        rw [List.filter_cons]
        simp [hexf]

theorem setOptions_unfold (t : OptionsTable) (id : Nat) (options : OptionMap) :
    setOptionsForContentSlot t id options
      = List.foldl (upStep (getOptionsForContentSlot t id) id)
          ⟨(List.foldl (delStep options id) (t, false) (getOptionsForContentSlot t id)).1,
           (List.foldl (delStep options id) (t, false) (getOptionsForContentSlot t id)).2, 0⟩
          options := rfl

theorem step1_table (t : OptionsTable) (id : Nat) (options : OptionMap) :
    (List.foldl (delStep options id) (t, false) (pairsFor t id)).1
      = t.filter (fun r =>
          !(r.contentslot_id == id && (delKeysOf options (pairsFor t id)).contains r.name)) :=
  (delete_pass_spec options id (pairsFor t id) t false).1

theorem step1_changed (t : OptionsTable) (id : Nat) (options : OptionMap) :
    (List.foldl (delStep options id) (t, false) (pairsFor t id)).2
      = !(delKeysOf options (pairsFor t id)).isEmpty := by
  have h := (delete_pass_spec options id (pairsFor t id) t false).2
  simpa using h

theorem WFoptions_step1 {t : OptionsTable} (hWF : WFoptions t) (id : Nat) (options : OptionMap) :
    WFoptions ((List.foldl (delStep options id) (t, false) (pairsFor t id)).1) := by
  rw [step1_table t id options]
  exact WFoptions_filter hWF _

theorem rowFor_step1_hasKey (t : OptionsTable) (id : Nat)
    {options : OptionMap} {k : String} (h : hasKey options k = true) :
    rowFor ((List.foldl (delStep options id) (t, false) (pairsFor t id)).1) id k
      = rowFor t id k := by
  rw [step1_table t id options, rowFor_filter]
  apply List.filter_eq_self.mpr
  intro r hr
  have hk := rowKey_of_mem_rowFor hr
  simp only [rowKey, Prod.mk.injEq] at hk
  rw [hk.2, contains_delKeysOf_of_hasKey _ h]
  simp

theorem rowFor_step1_not_hasKey (t : OptionsTable) (id : Nat)
    {options : OptionMap} {k : String} (h : hasKey options k = false) :
    rowFor ((List.foldl (delStep options id) (t, false) (pairsFor t id)).1) id k = [] := by
  rw [step1_table t id options, rowFor_filter]
  apply List.filter_eq_nil_iff.mpr
  intro a ha
  have hne : rowFor t id k ≠ [] := fun hnil => by
    rw [hnil] at ha
    exact absurd ha (List.not_mem_nil a)
  have hmem : k ∈ (pairsFor t id).map Prod.fst := by
    rw [← hasKey_iff_mem]
    exact (hasKey_pairsFor_iff t id k).mpr hne
  have hdk : k ∈ delKeysOf options (pairsFor t id) := (mem_delKeysOf _ _ _).mpr ⟨hmem, h⟩
  have hcont : (delKeysOf options (pairsFor t id)).contains k = true := List.elem_iff.mpr hdk
  have hk := rowKey_of_mem_rowFor ha
  simp only [rowKey, Prod.mk.injEq] at hk
  simp [hk.1, hk.2, hcont]
  exact hdk

theorem setOptions_spec {S : OptionsTable} (id : Nat) {D : OptionMap}
    (hWF : WFoptions S) (hD : nodupKeys D) :
    (∀ k v, D.lookup k = some v →
        rowFor (setOptionsForContentSlot S id D).table id k = [⟨id, k, v⟩])
    ∧ (∀ k, k ∉ D.map Prod.fst → rowFor (setOptionsForContentSlot S id D).table id k = [])
    ∧ WFoptions (setOptionsForContentSlot S id D).table
    ∧ ((setOptionsForContentSlot S id D).changed
        = ((!(delKeysOf D (pairsFor S id)).isEmpty)
            || D.any (fun kv =>
                if hasKey (pairsFor S id) kv.1 then
                  (rowFor S id kv.1).any (fun r => r.value != kv.2)
                else true)))
    ∧ (setOptionsForContentSlot S id D).updateStmts
        = (D.filter (fun kv => hasKey (pairsFor S id) kv.1)).length := by
  rw [setOptions_unfold, getOptions_eq_pairsFor hWF]
  have hks : ∀ k, k ∈ D.map Prod.fst →
      rowFor ((List.foldl (delStep D id) (S, false) (pairsFor S id)).1) id k
        = rowFor S id k := by
    intro k hk
    exact rowFor_step1_hasKey S id ((hasKey_iff_mem D k).mpr hk)
  obtain ⟨h1, h2, h3, h4, h5⟩ :=
    up_pass_spec S id hWF D
      ((List.foldl (delStep D id) (S, false) (pairsFor S id)).1)
      ((List.foldl (delStep D id) (S, false) (pairsFor S id)).2)
      0 hD (WFoptions_step1 hWF id D) hks
  refine ⟨h1, ?_, h3, ?_, ?_⟩
  · intro k hk
    rw [h2 k hk]
    have hkf : hasKey D k = false := by
      have := (hasKey_iff_mem D k).not
      simp only [hk, iff_false] at this
      simpa using this
    exact rowFor_step1_not_hasKey S id hkf
  · rw [h4, step1_changed S id D]
  · rw [h5]
    omega

theorem setOptions_changed_iff {S : OptionsTable} (id : Nat) {D : OptionMap}
    (hWF : WFoptions S) (hD : nodupKeys D) :
    ((setOptionsForContentSlot S id D).changed = false ↔ mapsEqual (pairsFor S id) D) := by
  rw [(setOptions_spec id hWF hD).2.2.2.1, Bool.or_eq_false_iff]
  constructor
  · rintro ⟨hdel, hany⟩
    have hdel' : delKeysOf D (pairsFor S id) = [] := by
      rw [Bool.not_eq_false'] at hdel
      exact List.isEmpty_iff.mp hdel
    have hany' := List.any_eq_false.mp hany
    intro k
    rw [lookup_pairsFor]
    obtain hnil | ⟨r, hr⟩ := rowFor_eq_nil_or_singleton hWF id k
    · rw [hnil]
      simp only [List.map_nil, List.head?_nil]
      cases hDk : D.lookup k with
      | none => rfl
      | some v =>
        exfalso
        have hmem := mem_of_lookup_eq_some hDk
        have hf := hany' (k, v) hmem
        have hkf : hasKey (pairsFor S id) k = false := by
          by_contra hc
          have hct : hasKey (pairsFor S id) k = true := by simpa using hc
          exact ((hasKey_pairsFor_iff S id k).mp hct) hnil
        simp [hkf] at hf
    · rw [hr]
      simp only [List.map_cons, List.map_nil, List.head?_cons]
      have hkt : hasKey (pairsFor S id) k = true :=
        (hasKey_pairsFor_iff S id k).mpr (by rw [hr]; simp)
      have hkD : hasKey D k = true := by
        by_contra hc
        have hkDf : hasKey D k = false := by simpa using hc
        have hmm : k ∈ delKeysOf D (pairsFor S id) :=
          (mem_delKeysOf _ _ _).mpr ⟨(hasKey_iff_mem _ _).mp hkt, hkDf⟩
        rw [hdel'] at hmm
        exact absurd hmm (List.not_mem_nil k)
      obtain ⟨v, hv⟩ := exists_lookup_of_mem_keys ((hasKey_iff_mem D k).mp hkD)
      rw [hv]
      have hmem := mem_of_lookup_eq_some hv
      have hf := hany' (k, v) hmem
      rw [hr] at hf
      simp [hkt] at hf
      rw [hf]
  · intro heq
    constructor
    · have hdel' : delKeysOf D (pairsFor S id) = [] := by
        apply List.filter_eq_nil_iff.mpr
        intro k hk
        have hkt : hasKey (pairsFor S id) k = true := (hasKey_iff_mem _ _).mpr hk
        have hne : rowFor S id k ≠ [] := (hasKey_pairsFor_iff S id k).mp hkt
        obtain hnil | ⟨r, hr⟩ := rowFor_eq_nil_or_singleton hWF id k
        · exact absurd hnil hne
        have hlk : List.lookup k (pairsFor S id) = some r.value := by
          rw [lookup_pairsFor, hr]
          simp
        have hDlk : D.lookup k = some r.value := by rw [← heq k]; exact hlk
        have hmm : k ∈ D.map Prod.fst :=
          List.mem_map.mpr ⟨(k, r.value), mem_of_lookup_eq_some hDlk, rfl⟩
        simp [hasKey_iff_mem, hmm]
      rw [hdel']
      rfl
    · apply List.any_eq_false.mpr
      intro kv hkv
      obtain ⟨k, v⟩ := kv
      have hvD : D.lookup k = some v := lookup_eq_some_of_mem hD hkv
      have hlp : List.lookup k (pairsFor S id) = some v := by rw [heq k]; exact hvD
      rw [lookup_pairsFor] at hlp
      obtain hnil | ⟨r, hr⟩ := rowFor_eq_nil_or_singleton hWF id k
      · rw [hnil] at hlp
        simp at hlp
      · rw [hr] at hlp
        simp only [List.map_cons, List.map_nil, List.head?_cons, Option.some.injEq] at hlp
        have hkt : hasKey (pairsFor S id) k = true :=
          (hasKey_pairsFor_iff S id k).mpr (by rw [hr]; simp)
        simp [hkt, hr, hlp]

theorem setOptions_result_mapsEqual {S : OptionsTable} (id : Nat) {D : OptionMap}
    (hWF : WFoptions S) (hD : nodupKeys D) :
    mapsEqual (pairsFor (setOptionsForContentSlot S id D).table id) D := by
  intro k
  rw [lookup_pairsFor]
  cases hDk : D.lookup k with
  | none =>
    have hk : k ∉ D.map Prod.fst := (lookup_eq_none_iff D k).mp hDk
    rw [(setOptions_spec id hWF hD).2.1 k hk]
    rfl
  | some v =>
    rw [(setOptions_spec id hWF hD).1 k v hDk]
    rfl

theorem setOptions_mem_rows {S : OptionsTable} (id : Nat) {D : OptionMap}
    (hWF : WFoptions S) (hD : nodupKeys D) :
    ∀ kv ∈ D, (⟨id, kv.1, kv.2⟩ : OptionRow) ∈ (setOptionsForContentSlot S id D).table := by
  intro kv hkv
  have hv := lookup_eq_some_of_mem hD hkv
  have hrow := (setOptions_spec id hWF hD).1 kv.1 kv.2 hv
  have hmem : (⟨id, kv.1, kv.2⟩ : OptionRow)
      ∈ rowFor (setOptionsForContentSlot S id D).table id kv.1 := by
    rw [hrow]
    exact List.mem_cons_self _ _
  exact (List.mem_filter.mp hmem).1

theorem setOptions_rows_in_D {S : OptionsTable} (id : Nat) {D : OptionMap}
    (hWF : WFoptions S) (hD : nodupKeys D) :
    ∀ r ∈ (setOptionsForContentSlot S id D).table,
      r.contentslot_id = id → D.lookup r.name = some r.value := by
  intro r hr hid
  have hmem : r ∈ rowFor (setOptionsForContentSlot S id D).table id r.name :=
    List.mem_filter.mpr ⟨hr, by simp [hid]⟩
  by_cases hk : r.name ∈ D.map Prod.fst
  · obtain ⟨v, hv⟩ := exists_lookup_of_mem_keys hk
    have hrow := (setOptions_spec id hWF hD).1 r.name v hv
    rw [hrow] at hmem
    simp only [List.mem_cons, List.not_mem_nil, or_false] at hmem
    have hval : r.value = v := by rw [hmem]
    rw [hval, hv]
  · rw [(setOptions_spec id hWF hD).2.1 r.name hk] at hmem
    exact absurd hmem (List.not_mem_nil r)

theorem slot_filter_length_le_one {slots : List SlotRow} (hIds : uniqueSlotIds slots)
    (q : SlotRow → Bool) (id : Nat) :
    (slots.filter (fun r => r.id == id && q r)).length ≤ 1 := by
  have hnd : ((slots.filter (fun r => r.id == id && q r)).map (fun r => r.id)).Nodup :=
    List.Nodup.sublist (List.Sublist.map _ (List.filter_sublist slots)) hIds
  cases h : slots.filter (fun r => r.id == id && q r) with
  | nil => simp
  | cons r rest =>
    cases rest with
    | nil => simp
    | cons r' rest' =>
      exfalso
      have hr : r ∈ slots.filter (fun r => r.id == id && q r) := by
        rw [h]
        exact List.mem_cons_self _ _
      have hr' : r' ∈ slots.filter (fun r => r.id == id && q r) := by
        rw [h]
        exact List.mem_cons_of_mem _ (List.mem_cons_self _ _)
      have hid1 : r.id = id := by
        have hp := (List.mem_filter.mp hr).2
        simp only [Bool.and_eq_true, beq_iff_eq] at hp
        exact hp.1
      have hid2 : r'.id = id := by
        have hp := (List.mem_filter.mp hr').2
        simp only [Bool.and_eq_true, beq_iff_eq] at hp
        exact hp.1
      rw [h] at hnd
      simp only [List.map_cons, List.nodup_cons, List.mem_cons] at hnd
      exact hnd.1 (Or.inl (by rw [hid1, hid2]))

theorem slot_affected_iff {slots : List SlotRow} (hIds : uniqueSlotIds slots)
    (q : SlotRow → Bool) (id : Nat) :
    (((slots.filter (fun r => r.id == id && q r)).length == 1) = true
      ↔ ∃ r ∈ slots, r.id = id ∧ q r = true) := by
  rw [beq_iff_eq]
  have hle := slot_filter_length_le_one hIds q id
  constructor
  · intro h
    cases hf : slots.filter (fun r => r.id == id && q r) with
    | nil => rw [hf] at h; simp at h
    | cons r rest =>
      have hr : r ∈ slots.filter (fun r => r.id == id && q r) := by
        rw [hf]
        exact List.mem_cons_self _ _
      have hp := List.mem_filter.mp hr
      have hb := hp.2
      simp only [Bool.and_eq_true, beq_iff_eq] at hb
      exact ⟨r, hp.1, hb.1, hb.2⟩
  · rintro ⟨r, hr, h1, h2⟩
    have hmem : r ∈ slots.filter (fun r => r.id == id && q r) :=
      List.mem_filter.mpr ⟨hr, by simp [h1, h2]⟩
    have hpos : 0 < (slots.filter (fun r => r.id == id && q r)).length :=
      List.length_pos_of_mem hmem
    omega

theorem ifSome_eq_some_iff (b : Bool) (i : Nat) :
    ((if b then some i else none) = some i) ↔ b = true := by
  cases b <;> simp

theorem ifSome_eq_none_iff (b : Bool) (i : Nat) :
    ((if b then some i else none) = none) ↔ b = false := by
  cases b <;> simp

/-- C1: for every starting persisted option table `S` (satisfying the schema's
unique `(contentslot_id, name)` constraint) and every desired option object `D`,
after `setOptionsForContentSlot` completes the rows stored for `slotId` have
exactly the key set of `D` — every stored row's value is `D`'s value for its name,
and every entry of `D` is stored — so no stale keys survive, regardless of `S`. -/
theorem C1_setOptions_synchronizes (S : OptionsTable) (id : Nat) (D : OptionMap)
    (hWF : WFoptions S) (hD : nodupKeys D) :
    (∀ r ∈ (setOptionsForContentSlot S id D).table,
        r.contentslot_id = id → D.lookup r.name = some r.value)
    ∧ (∀ kv ∈ D, (⟨id, kv.1, kv.2⟩ : OptionRow) ∈ (setOptionsForContentSlot S id D).table) :=
  ⟨setOptions_rows_in_D id hWF hD, setOptions_mem_rows id hWF hD⟩

/-- C1 witness: a concrete synchronization (`{color: red, old: x}` to
`{color: blue, size: large}`) stores the row `(1, color, blue)`. -/
theorem C1_setOptions_synchronizes_witness :
    WFoptions [⟨1, "color", "red"⟩, ⟨1, "old", "x"⟩, ⟨2, "k", "v"⟩]
    ∧ nodupKeys [("color", "blue"), ("size", "large")]
    ∧ (⟨1, "color", "blue"⟩ : OptionRow)
        ∈ (setOptionsForContentSlot [⟨1, "color", "red"⟩, ⟨1, "old", "x"⟩, ⟨2, "k", "v"⟩] 1
            [("color", "blue"), ("size", "large")]).table :=
  ⟨by decide, by decide,
    (C1_setOptions_synchronizes [⟨1, "color", "red"⟩, ⟨1, "old", "x"⟩, ⟨2, "k", "v"⟩] 1
        [("color", "blue"), ("size", "large")] (by decide) (by decide)).2
      ("color", "blue") (by decide)⟩

/-- C2: `setOptionsForContentSlot` reports `changed = false` iff the persisted map
for the slot equals `D` as a map (same keys, same values), under the storage model
where an `UPDATE` reports one affected row exactly when the written value differs;
moreover one `UPDATE` statement is issued for every key of `D` that already
existed, even when its value is unchanged. -/
theorem C2_changed_iff_maps_equal (S : OptionsTable) (id : Nat) (D : OptionMap)
    (hWF : WFoptions S) (hD : nodupKeys D) :
    ((setOptionsForContentSlot S id D).changed = false ↔ mapsEqual (pairsFor S id) D)
    ∧ (setOptionsForContentSlot S id D).updateStmts
        = (D.filter (fun kv => hasKey (pairsFor S id) kv.1)).length :=
  ⟨setOptions_changed_iff id hWF hD, (setOptions_spec id hWF hD).2.2.2.2⟩

/-- C2 witness: re-writing the identical map reports `changed = false`. -/
theorem C2_changed_iff_maps_equal_witness :
    WFoptions [⟨1, "color", "red"⟩]
    ∧ nodupKeys [("color", "red")]
    ∧ (setOptionsForContentSlot [⟨1, "color", "red"⟩] 1 [("color", "red")]).changed = false :=
  ⟨by decide, by decide,
    ((C2_changed_iff_maps_equal [⟨1, "color", "red"⟩] 1 [("color", "red")]
        (by decide) (by decide)).1).mpr (fun k => rfl)⟩

/-- C3: `updateContentSlot` returns the id exactly when the slot-row `UPDATE`
affected a row (a stored row with this id differs in a scalar column) or the option
synchronization reported a change (the persisted option map differs from `D`); a
second identical call — same scalars, same options — returns the absent sentinel. -/
theorem C3_update_two_signals (db : Db) (id : Nat) (componentType : String) (viewId : Nat)
    (columnStart rowStart columnEnd rowEnd : Int) (D : OptionMap)
    (hIds : uniqueSlotIds db.slots) (hWF : WFoptions db.slotOptions) (hD : nodupKeys D) :
    ((updateContentSlotCore db id componentType viewId columnStart rowStart columnEnd rowEnd D).2
        = some id
      ↔ ((∃ r ∈ db.slots, r.id = id
            ∧ slotFieldsMatch r componentType viewId columnStart rowStart columnEnd rowEnd = false)
          ∨ ¬ mapsEqual (pairsFor db.slotOptions id) D))
    ∧ (updateContentSlotCore
        (updateContentSlotCore db id componentType viewId columnStart rowStart columnEnd rowEnd D).1
        id componentType viewId columnStart rowStart columnEnd rowEnd D).2 = none := by
  constructor
  · rw [show (updateContentSlotCore db id componentType viewId columnStart rowStart columnEnd rowEnd D).2
        = (if ((db.slots.filter (fun r => r.id == id
              && !(slotFieldsMatch r componentType viewId columnStart rowStart columnEnd rowEnd))).length == 1)
            || (setOptionsForContentSlot db.slotOptions id D).changed
           then some id else none) from rfl]
    rw [ifSome_eq_some_iff, Bool.or_eq_true]
    apply or_congr
    · have hA := slot_affected_iff hIds
        (fun r => !(slotFieldsMatch r componentType viewId columnStart rowStart columnEnd rowEnd)) id
      simp only [Bool.not_eq_true'] at hA
      exact hA
    · have hC := setOptions_changed_iff id hWF hD
      constructor
      · intro hch hmE
        rw [hC.mpr hmE] at hch
        exact Bool.false_ne_true hch
      · intro hnot
        cases hch : (setOptionsForContentSlot db.slotOptions id D).changed with
        | false => exact absurd (hC.mp hch) hnot
        | true => rfl
  · rw [show (updateContentSlotCore
          (updateContentSlotCore db id componentType viewId columnStart rowStart columnEnd rowEnd D).1
          id componentType viewId columnStart rowStart columnEnd rowEnd D).2
        = (if (((updateContentSlotCore db id componentType viewId columnStart rowStart columnEnd rowEnd D).1.slots.filter
                (fun r => r.id == id
                  && !(slotFieldsMatch r componentType viewId columnStart rowStart columnEnd rowEnd))).length == 1)
            || (setOptionsForContentSlot
                (updateContentSlotCore db id componentType viewId columnStart rowStart columnEnd rowEnd D).1.slotOptions
                id D).changed
           then some id else none) from rfl]
    rw [ifSome_eq_none_iff]
    apply Bool.or_eq_false_iff.mpr
    constructor
    · have hnil : (updateContentSlotCore db id componentType viewId columnStart rowStart columnEnd rowEnd D).1.slots.filter
          (fun r => r.id == id
            && !(slotFieldsMatch r componentType viewId columnStart rowStart columnEnd rowEnd)) = [] := by
        apply List.filter_eq_nil_iff.mpr
        intro r' hr'
        obtain ⟨r, hr, hgr⟩ := List.mem_map.mp hr'
        by_cases hri : (r.id == id) = true
        · rw [if_pos hri] at hgr
          rw [← hgr]
          simp [slotFieldsMatch]
        · rw [if_neg hri] at hgr
          rw [← hgr]
          simp only [Bool.and_eq_true]
          intro hcontra
          exact hri hcontra.1
      rw [hnil]
      rfl
    · exact (setOptions_changed_iff id ((setOptions_spec id hWF hD).2.2.1) hD).mpr
        (setOptions_result_mapsEqual id hWF hD)

/-- C3 witness: the second of two identical update calls returns the absent
sentinel (`none`). -/
theorem C3_update_two_signals_witness :
    uniqueSlotIds [⟨5, 1, "x", 1, 1, 2, 2⟩]
    ∧ WFoptions ([] : OptionsTable)
    ∧ nodupKeys [("a", "b")]
    ∧ (updateContentSlotCore
        (updateContentSlotCore ⟨[⟨5, 1, "x", 1, 1, 2, 2⟩], []⟩ 5 "y" 2 1 1 2 2 [("a", "b")]).1
        5 "y" 2 1 1 2 2 [("a", "b")]).2 = none :=
  ⟨by decide, by decide, by decide,
    (C3_update_two_signals ⟨[⟨5, 1, "x", 1, 1, 2, 2⟩], []⟩ 5 "y" 2 1 1 2 2 [("a", "b")]
      (by decide) (by decide) (by decide)).2⟩

/-- C10: calling `updateContentSlot` with an id that has no slot row and a
non-empty option object does not return the absent sentinel: the slot-row `UPDATE`
affects zero rows, but the synchronizer (finding no existing options) inserts one
option row per desired key for the nonexistent id and reports a change, so the call
returns the id and leaves orphan option rows referencing no slot row. -/
theorem C10_update_orphan_rows (db : Db) (id : Nat) (componentType : String) (viewId : Nat)
    (columnStart rowStart columnEnd rowEnd : Int) (D : OptionMap)
    (hWF : WFoptions db.slotOptions) (hD : nodupKeys D)
    (hNoSlot : ∀ r ∈ db.slots, r.id ≠ id)
    (hNoOpt : ∀ r ∈ db.slotOptions, r.contentslot_id ≠ id)
    (hne : D ≠ []) :
    (db.slots.filter (fun r => r.id == id
        && !(slotFieldsMatch r componentType viewId columnStart rowStart columnEnd rowEnd))).length = 0
    ∧ (updateContentSlotCore db id componentType viewId columnStart rowStart columnEnd rowEnd D).2
        = some id
    ∧ (∀ kv ∈ D, (⟨id, kv.1, kv.2⟩ : OptionRow)
        ∈ (updateContentSlotCore db id componentType viewId columnStart rowStart columnEnd rowEnd D).1.slotOptions)
    ∧ (∀ r ∈ (updateContentSlotCore db id componentType viewId columnStart rowStart columnEnd rowEnd D).1.slots,
        r.id ≠ id) := by
  have haff : db.slots.filter (fun r => r.id == id
      && !(slotFieldsMatch r componentType viewId columnStart rowStart columnEnd rowEnd)) = [] := by
    apply List.filter_eq_nil_iff.mpr
    intro r hr
    simp only [Bool.and_eq_true, beq_iff_eq]
    intro hcontra
    exact hNoSlot r hr hcontra.1
  have hpairs : pairsFor db.slotOptions id = [] := by
    unfold pairsFor
    rw [List.filter_eq_nil_iff.mpr (fun r hr => by
      simp only [beq_iff_eq]
      exact hNoOpt r hr)]
    rfl
  have hchanged : (setOptionsForContentSlot db.slotOptions id D).changed = true := by
    cases hch : (setOptionsForContentSlot db.slotOptions id D).changed with
    | true => rfl
    | false =>
      exfalso
      have hmE := (setOptions_changed_iff id hWF hD).mp hch
      cases D with
      | nil => exact hne rfl
      | cons kv rest =>
        obtain ⟨k, v⟩ := kv
        have h1 := hmE k
        rw [hpairs] at h1
        simp [List.lookup_cons] at h1
  refine ⟨by rw [haff]; rfl, ?_, ?_, ?_⟩
  · rw [show (updateContentSlotCore db id componentType viewId columnStart rowStart columnEnd rowEnd D).2
        = (if ((db.slots.filter (fun r => r.id == id
              && !(slotFieldsMatch r componentType viewId columnStart rowStart columnEnd rowEnd))).length == 1)
            || (setOptionsForContentSlot db.slotOptions id D).changed
           then some id else none) from rfl]
    rw [haff, hchanged]
    rfl
  · exact setOptions_mem_rows id hWF hD
  · intro r' hr'
    obtain ⟨r, hr, hgr⟩ := List.mem_map.mp hr'
    have hid : r'.id = r.id := by
      rw [← hgr]
      by_cases hri : (r.id == id) = true
      · rw [if_pos hri]
      · rw [if_neg hri]
    rw [hid]
    exact hNoSlot r hr

/-- C10 witness: updating a nonexistent id `9` with a non-empty option map returns
`some 9` rather than the absent sentinel. -/
theorem C10_update_orphan_rows_witness :
    ([("a", "b")] : OptionMap) ≠ []
    ∧ (updateContentSlotCore ⟨[⟨5, 1, "x", 1, 1, 2, 2⟩], []⟩ 9 "banner" 1 1 1 2 2 [("a", "b")]).2
        = some 9 :=
  ⟨by decide,
    (C10_update_orphan_rows ⟨[⟨5, 1, "x", 1, 1, 2, 2⟩], []⟩ 9 "banner" 1 1 1 2 2 [("a", "b")]
      (by decide) (by decide) (by decide) (by decide) (by decide)).2.1⟩

theorem length_le_eraseP_add_one {α : Type} (l : List α) (p : α → Bool) :
    l.length ≤ (l.eraseP p).length + 1 := by
  induction l with
  | nil => simp
  | cons a rest ih =>
    rw [List.eraseP_cons]
    by_cases h : p a = true
    · simp [h]
    · have hf : p a = false := by simpa using h
      simp only [hf, cond_false, List.length_cons]
      omega

/-- C4: a storage failure inside `createContentSlot` is rethrown as
`DuplicateEntry` carrying the diagnostic code exactly when it is the storage
engine's duplicate-key condition (errno 1062), and as a typed `StorageError`
carrying the code for every other failure; on success the call returns the
storage-assigned insert id after synchronizing the given options for that id. -/
theorem C4_create_error_mapping (db : Db) (componentType : String) (viewId : Nat)
    (columnStart rowStart columnEnd rowEnd : Int) (D : OptionMap) (newId : Nat) (e : SqlError) :
    ((createContentSlot db componentType viewId columnStart rowStart columnEnd rowEnd D newId
        (OpFault.queryFail e)).result = Except.error (RepoError.duplicateEntry e.code)
      ↔ e.errno = 1062)
    ∧ (createContentSlot db componentType viewId columnStart rowStart columnEnd rowEnd D newId
        (OpFault.queryFail e)).result
        = Except.error (if e.errno == 1062 then RepoError.duplicateEntry e.code
            else RepoError.storageError e.code)
    ∧ (createContentSlot db componentType viewId columnStart rowStart columnEnd rowEnd D newId
        (OpFault.acquireFail e)).result
        = Except.error (if e.errno == 1062 then RepoError.duplicateEntry e.code
            else RepoError.storageError e.code)
    ∧ (createContentSlot db componentType viewId columnStart rowStart columnEnd rowEnd D newId
        OpFault.noFault).result
        = Except.ok (createContentSlotCore db componentType viewId columnStart rowStart
            columnEnd rowEnd D newId)
    ∧ (createContentSlotCore db componentType viewId columnStart rowStart columnEnd rowEnd D
        newId).2 = newId
    ∧ (createContentSlotCore db componentType viewId columnStart rowStart columnEnd rowEnd D
        newId).1.slotOptions = (setOptionsForContentSlot db.slotOptions newId D).table := by
  refine ⟨?_, rfl, rfl, rfl, rfl, rfl⟩
  constructor
  · intro h
    by_cases h62 : e.errno = 1062
    · exact h62
    · exfalso
      have hb : (e.errno == 1062) = false := by simpa using h62
      simp only [createContentSlot, runCreate, classifyCreateError, hb, if_false] at h
      simp at h
  · intro h62
    have hb : (e.errno == 1062) = true := by simpa using h62
    simp only [createContentSlot, runCreate, classifyCreateError, hb, if_true]

theorem lookup_isSome_outerSet (m : List (Nat × OptionMap)) (i : Nat) (k v : String) (j : Nat) :
    ((outerSet m i k v).lookup j).isSome = (m.lookup j).isSome := by
  induction m with
  | nil => rfl
  | cons p rest ih =>
    obtain ⟨pid, pm⟩ := p
    unfold outerSet at ih ⊢
    rw [List.map_cons]
    by_cases h : (pid == i) = true
    · rw [if_pos h]
      rw [List.lookup_cons, List.lookup_cons]
      cases hj : (j == pid) with
      | true => rfl
      | false => simpa using ih
    · rw [if_neg h]
      rw [List.lookup_cons, List.lookup_cons]
      cases hj : (j == pid) with
      | true => rfl
      | false => simpa using ih

theorem lookup_isSome_fold (rows : OptionsTable) :
    ∀ (m : List (Nat × OptionMap)) (j : Nat), (m.lookup j).isSome = true →
      ((rows.foldl (fun m r => outerSet m r.contentslot_id r.name r.value) m).lookup j).isSome
        = true := by
  induction rows with
  | nil => intro m j h; exact h
  | cons r rest ih =>
    intro m j h
    rw [List.foldl_cons]
    refine ih _ j ?_
    rw [lookup_isSome_outerSet]
    exact h

theorem lookup_init_isSome (ids : List Nat) (j : Nat) (hj : j ∈ ids) :
    ((ids.map (fun i => (i, ([] : OptionMap)))).lookup j).isSome = true := by
  induction ids with
  | nil => simp at hj
  | cons i rest ih =>
    rw [List.map_cons, List.lookup_cons]
    by_cases h : (j == i) = true
    · simp [h]
    · have hf : (j == i) = false := by simpa using h
      simp only [hf]
      apply ih
      rcases List.mem_cons.mp hj with h1 | h1
      · exact absurd (beq_iff_eq.mpr h1) (by simp [hf])
      · exact h1

theorem getOptionsForContentSlots_isSome (t : OptionsTable) (ids : List Nat) (j : Nat)
    (hj : j ∈ ids) : ((getOptionsForContentSlots t ids).lookup j).isSome = true := by
  unfold getOptionsForContentSlots
  exact lookup_isSome_fold _ _ j (lookup_init_isSome ids j hj)

/-- C5: `getContentSlotsByViewId` issues no options query and returns an empty
sequence when the view has no slot rows; when slot rows exist it issues exactly one
options query covering all retrieved slot ids, returns one aggregate per row, and
the batch read holds a present (possibly empty) options map for every retrieved
slot id, because it pre-initializes an empty map per requested id. -/
theorem C5_getByViewId_batch (db : Db) (viewId : Nat) :
    (db.slots.filter (fun r => r.view_id == viewId) = [] →
      getContentSlotsByViewIdCore db viewId = ([], 0))
    ∧ (db.slots.filter (fun r => r.view_id == viewId) ≠ [] →
        (getContentSlotsByViewIdCore db viewId).2 = 1
        ∧ (getContentSlotsByViewIdCore db viewId).1.length
            = (db.slots.filter (fun r => r.view_id == viewId)).length)
    ∧ (∀ r ∈ db.slots.filter (fun r => r.view_id == viewId),
        ((getOptionsForContentSlots db.slotOptions
            ((db.slots.filter (fun r => r.view_id == viewId)).map (fun r => r.id))).lookup
          r.id).isSome = true) := by
  refine ⟨?_, ?_, ?_⟩
  · intro h
    unfold getContentSlotsByViewIdCore
    rw [h]
    rfl
  · intro h
    have hlen : ((db.slots.filter (fun r => r.view_id == viewId)).length == 0) = false := by
      cases hf : db.slots.filter (fun r => r.view_id == viewId) with
      | nil => exact absurd hf h
      | cons a l => rfl
    have hifneg : ¬ (((db.slots.filter (fun r => r.view_id == viewId)).length == 0) = true) := by
      rw [hlen]
      exact Bool.false_ne_true
    constructor
    · unfold getContentSlotsByViewIdCore
      rw [if_neg hifneg]
    · unfold getContentSlotsByViewIdCore
      rw [if_neg hifneg]
      exact List.length_map _ _
  · intro r hr
    apply getOptionsForContentSlots_isSome
    exact List.mem_map.mpr ⟨r, hr, rfl⟩

/-- C5 witness: a view with no slots yields `([], 0)` (no options query); a view
with one slot issues exactly one options query. -/
theorem C5_getByViewId_batch_witness :
    getContentSlotsByViewIdCore ⟨[], []⟩ 1 = ([], 0)
    ∧ (getContentSlotsByViewIdCore ⟨[⟨5, 1, "x", 1, 1, 2, 2⟩], []⟩ 1).2 = 1 :=
  ⟨(C5_getByViewId_batch ⟨[], []⟩ 1).1 (by decide),
   ((C5_getByViewId_batch ⟨[⟨5, 1, "x", 1, 1, 2, 2⟩], []⟩ 1).2.1 (by decide)).1⟩

/-- C6: `deleteOne` removes at most one slot row, returns the id exactly when a row
with that id existed, and on a non-existent id returns the absent sentinel as a
normal `Except.ok` result — not an error. -/
theorem C6_deleteOne_absent (db : Db) (id : Nat) :
    ((deleteOneCore db id).2 = some id ↔ ∃ r ∈ db.slots, r.id = id)
    ∧ (deleteOneCore db id).1.slots.length ≤ db.slots.length
    ∧ db.slots.length ≤ (deleteOneCore db id).1.slots.length + 1
    ∧ ((∀ r ∈ db.slots, r.id ≠ id) →
        (deleteOne db id OpFault.noFault).result = Except.ok (db, none)) := by
  refine ⟨?_, ?_, ?_, ?_⟩
  · by_cases h : db.slots.any (fun r => r.id == id) = true
    · have hL : (deleteOneCore db id).2 = some id := by
        simp [deleteOneCore, h]
      rw [hL]
      constructor
      · intro _
        obtain ⟨r, hr, hb⟩ := List.any_eq_true.mp h
        exact ⟨r, hr, by simpa using hb⟩
      · intro _
        rfl
    · have hf : db.slots.any (fun r => r.id == id) = false := by simpa using h
      have hL : (deleteOneCore db id).2 = none := by
        simp [deleteOneCore, hf]
      rw [hL]
      constructor
      · intro hcontra
        exact absurd hcontra (by simp)
      · rintro ⟨r, hr, hid⟩
        exfalso
        have ht : db.slots.any (fun r => r.id == id) = true :=
          List.any_eq_true.mpr ⟨r, hr, by simp [hid]⟩
        rw [hf] at ht
        exact Bool.false_ne_true ht
  · exact List.Sublist.length_le (List.eraseP_sublist _)
  · exact length_le_eraseP_add_one db.slots _
  · intro hnone
    have hf : db.slots.any (fun r => r.id == id) = false := by
      apply List.any_eq_false.mpr
      intro r hr
      simp only [beq_iff_eq]
      exact fun hh => hnone r hr hh
    have her : db.slots.eraseP (fun r => r.id == id) = db.slots :=
      List.eraseP_of_forall_not (by
        intro r hr
        simp only [beq_iff_eq]
        exact fun hh => hnone r hr hh)
    rw [show (deleteOne db id OpFault.noFault).result
        = Except.ok (deleteOneCore db id) from rfl]
    unfold deleteOneCore
    rw [hf, her]
    rfl

/-- C6 witness: deleting id 3 from an empty table returns `Except.ok (db, none)`. -/
theorem C6_deleteOne_absent_witness :
    (deleteOne ⟨[], []⟩ 3 OpFault.noFault).result = Except.ok (⟨[], []⟩, none) :=
  (C6_deleteOne_absent ⟨[], []⟩ 3).2.2.2 (by decide)

/-- C7 counterexample: the claim that no operation ever surfaces a raw
storage-engine exception is false — `deleteOne` has only `try`/`finally` and no
`catch`, so a failing DELETE statement propagates the raw driver error unwrapped. -/
theorem C7_raw_error_escapes_counterexample :
    (deleteOne ⟨[], []⟩ 7 (OpFault.queryFail ⟨1213, "ER_NO_REFERENCED_ROW"⟩)).result
      = Except.error (RepoError.raw ⟨1213, "ER_NO_REFERENCED_ROW"⟩) := rfl

/-- C7 (amended): `createContentSlot` always returns a domain value or one of the
two typed errors (`DuplicateEntry` / `StorageError`) — never a raw driver error —
while the other four operations return domain values or the absent sentinel on
success but propagate the raw storage-engine error unwrapped on any failure. -/
theorem C7_error_surface (db : Db) (id viewId newId : Nat) (componentType : String)
    (columnStart rowStart columnEnd rowEnd : Int) (D : OptionMap) (e : SqlError) :
    ((createContentSlot db componentType viewId columnStart rowStart columnEnd rowEnd D newId
        OpFault.noFault).result
      = Except.ok (createContentSlotCore db componentType viewId columnStart rowStart
          columnEnd rowEnd D newId))
    ∧ ((createContentSlot db componentType viewId columnStart rowStart columnEnd rowEnd D newId
        (OpFault.queryFail e)).result = Except.error (classifyCreateError e))
    ∧ ((createContentSlot db componentType viewId columnStart rowStart columnEnd rowEnd D newId
        (OpFault.acquireFail e)).result = Except.error (classifyCreateError e))
    ∧ (classifyCreateError e = RepoError.duplicateEntry e.code
        ∨ classifyCreateError e = RepoError.storageError e.code)
    ∧ ((deleteOne db id (OpFault.queryFail e)).result = Except.error (RepoError.raw e))
    ∧ ((updateContentSlot db id componentType viewId columnStart rowStart columnEnd rowEnd D
        (OpFault.queryFail e)).result = Except.error (RepoError.raw e))
    ∧ ((getContentSlotsByViewId db viewId (OpFault.queryFail e)).result
        = Except.error (RepoError.raw e))
    ∧ ((getContentSlotsByComponentType db componentType (OpFault.queryFail e)).result
        = Except.error (RepoError.raw e)) := by
  refine ⟨rfl, rfl, rfl, ?_, rfl, rfl, rfl, rfl⟩
  unfold classifyCreateError
  by_cases h : (e.errno == 1062) = true
  · rw [if_pos h]
    exact Or.inl rfl
  · rw [if_neg h]
    exact Or.inr rfl

/-- C8: every operation that acquires a pooled connection releases it on every exit
path: for each of the five operations and every fault outcome, the released flag
equals the acquired flag (the shared `finally` cleanup releases exactly when a
connection was obtained, including on duplicate-key and generic failures). -/
theorem C8_connection_release (db : Db) (id viewId newId : Nat) (componentType : String)
    (columnStart rowStart columnEnd rowEnd : Int) (D : OptionMap) (fault : OpFault) :
    ((createContentSlot db componentType viewId columnStart rowStart columnEnd rowEnd D newId
        fault).connReleased
      = (createContentSlot db componentType viewId columnStart rowStart columnEnd rowEnd D newId
          fault).connAcquired)
    ∧ ((deleteOne db id fault).connReleased = (deleteOne db id fault).connAcquired)
    ∧ ((getContentSlotsByViewId db viewId fault).connReleased
        = (getContentSlotsByViewId db viewId fault).connAcquired)
    ∧ ((getContentSlotsByComponentType db componentType fault).connReleased
        = (getContentSlotsByComponentType db componentType fault).connAcquired)
    ∧ ((updateContentSlot db id componentType viewId columnStart rowStart columnEnd rowEnd D
        fault).connReleased
        = (updateContentSlot db id componentType viewId columnStart rowStart columnEnd rowEnd D
            fault).connAcquired) := by
  cases fault <;> exact ⟨rfl, rfl, rfl, rfl, rfl⟩

/-- C9: every aggregate returned by `getContentSlotsByComponentType` carries an
empty options map: each slot row is mapped through the pure projection
`rowToObject`, which always sets `options` to the empty object, and the operation's
result does not depend on the options table at all. -/
theorem C9_byComponentType_empty_options (db : Db) (componentType : String) :
    (∀ o ∈ getContentSlotsByComponentTypeCore db componentType, o.options = [])
    ∧ (∀ row : SlotRow, (rowToObject row).options = [])
    ∧ (∀ opts : OptionsTable,
        getContentSlotsByComponentTypeCore ⟨db.slots, opts⟩ componentType
          = getContentSlotsByComponentTypeCore db componentType) := by
  refine ⟨?_, fun _ => rfl, fun _ => rfl⟩
  intro o ho
  obtain ⟨r, _, hr⟩ := List.mem_map.mp ho
  rw [← hr]
  rfl

/-- C9 witness: the one aggregate returned for component type `"x"` has an empty
options map even though the options table holds a row for that slot. -/
theorem C9_byComponentType_empty_options_witness :
    rowToObject ⟨5, 1, "x", 1, 1, 2, 2⟩
      ∈ getContentSlotsByComponentTypeCore ⟨[⟨5, 1, "x", 1, 1, 2, 2⟩], [⟨5, "a", "b"⟩]⟩ "x"
    ∧ (rowToObject ⟨5, 1, "x", 1, 1, 2, 2⟩).options = [] :=
  ⟨by decide,
    (C9_byComponentType_empty_options ⟨[⟨5, 1, "x", 1, 1, 2, 2⟩], [⟨5, "a", "b"⟩]⟩ "x").1
      (rowToObject ⟨5, 1, "x", 1, 1, 2, 2⟩) (by decide)⟩
